import Mathlib

/-!
Verification development for the catalist-oracle validator-state engine.

The Python sources (`src/services/validator_state.py`,
`src/web3py/extensions/lido_validators.py`, `src/web3_extentions/lido_validators.py`)
are shallowly embedded below.  Python `dict`s are modelled as association
lists with unique keys (insertion order preserved, exactly the CPython
semantics); a `KeyError` is modelled by `Option`: a computation that would
raise returns `none`.
-/

namespace Oracle

set_option autoImplicit false

variable {α : Type} {β : Type} {γ : Type}

/-- Lookup in an association list: value of the first entry whose key matches
(`d[k]` when it does not raise). -/
def dlookup [DecidableEq α] (k : α) : List (α × β) → Option β
  | [] => none
  | p :: rest => if p.1 = k then some p.2 else dlookup k rest

/-- `d[k] = v`: replace the value of the first entry with key `k` in place,
or append a new entry at the end (CPython dict assignment keeps the original
position of an existing key). -/
def dinsert [DecidableEq α] (k : α) (v : β) : List (α × β) → List (α × β)
  | [] => [(k, v)]
  | p :: rest => if p.1 = k then (k, v) :: rest else p :: dinsert k v rest

/-- In-place update of the value stored at key `k` (models mutating the value
object held by a dict entry, e.g. `d[k].append(x)`). -/
def dupdate [DecidableEq α] (k : α) (f : β → β) : List (α × β) → List (α × β)
  | [] => []
  | p :: rest => if p.1 = k then (p.1, f p.2) :: rest else p :: dupdate k f rest

/-- `del d[k]`: remove the first entry with key `k`. -/
def derase [DecidableEq α] (k : α) : List (α × β) → List (α × β)
  | [] => []
  | p :: rest => if p.1 = k then rest else p :: derase k rest

section DictLemmas

variable [DecidableEq α]

theorem dlookup_nil (k : α) : dlookup (β := β) k [] = none := rfl

theorem dlookup_cons (k : α) (p : α × β) (rest : List (α × β)) :
    dlookup k (p :: rest) = if p.1 = k then some p.2 else dlookup k rest := rfl

theorem keys_dinsert (k : α) (v : β) (m : List (α × β)) :
    ((dinsert k v m).map Prod.fst) = if k ∈ m.map Prod.fst then m.map Prod.fst
      else m.map Prod.fst ++ [k] := by
  induction m with
  | nil => simp [dinsert]
  | cons p rest ih =>
    by_cases h : p.1 = k
    · simp [dinsert, h]
    · simp only [dinsert, if_neg h, List.map_cons, ih, List.mem_cons]
      have : ¬ (k = p.1) := fun hc => h hc.symm
      by_cases hk : k ∈ rest.map Prod.fst <;> simp [this, hk]

theorem dlookup_dinsert_self (k : α) (v : β) (m : List (α × β)) :
    dlookup k (dinsert k v m) = some v := by
  induction m with
  | nil => simp [dinsert, dlookup]
  | cons p rest ih =>
    by_cases h : p.1 = k
    · simp [dinsert, h, dlookup]
    · simp [dinsert, h, dlookup, ih]

theorem dlookup_dinsert_ne (k k' : α) (v : β) (m : List (α × β)) (h : k ≠ k') :
    dlookup k' (dinsert k v m) = dlookup k' m := by
  induction m with
  | nil => simp [dinsert, dlookup, h]
  | cons p rest ih =>
    by_cases hp : p.1 = k
    · subst hp
      simp [dinsert, dlookup, h]
    · simp only [dinsert, if_neg hp, dlookup_cons]
      by_cases hp' : p.1 = k' <;> simp [hp', ih]

theorem keys_dupdate (k : α) (f : β → β) (m : List (α × β)) :
    (dupdate k f m).map Prod.fst = m.map Prod.fst := by
  induction m with
  | nil => rfl
  | cons p rest ih =>
    by_cases h : p.1 = k <;> simp [dupdate, h, ih]

theorem dlookup_dupdate_self (k : α) (f : β → β) (m : List (α × β)) :
    dlookup k (dupdate k f m) = (dlookup k m).map f := by
  induction m with
  | nil => rfl
  | cons p rest ih =>
    by_cases h : p.1 = k
    · simp [dupdate, h, dlookup]
    · simp [dupdate, h, dlookup, ih]

theorem dlookup_dupdate_ne (k k' : α) (f : β → β) (m : List (α × β)) (h : k ≠ k') :
    dlookup k' (dupdate k f m) = dlookup k' m := by
  induction m with
  | nil => rfl
  | cons p rest ih =>
    by_cases hp : p.1 = k
    · subst hp
      simp [dupdate, dlookup, h]
    · simp only [dupdate, if_neg hp, dlookup_cons]
      by_cases hp' : p.1 = k' <;> simp [hp', ih]

theorem keys_derase_sublist (k : α) (m : List (α × β)) :
    ((derase k m).map Prod.fst).Sublist (m.map Prod.fst) := by
  induction m with
  | nil => simp [derase]
  | cons p rest ih =>
    by_cases h : p.1 = k
    · simp only [derase, if_pos h, List.map_cons]
      exact List.Sublist.cons _ (List.Sublist.refl _)
    · simp only [derase, if_neg h, List.map_cons]
      exact ih.cons₂ _

theorem keys_derase_nodup (k : α) (m : List (α × β))
    (h : (m.map Prod.fst).Nodup) : ((derase k m).map Prod.fst).Nodup :=
  (keys_derase_sublist k m).nodup h

theorem dlookup_eq_none_iff (k : α) (m : List (α × β)) :
    dlookup k m = none ↔ k ∉ m.map Prod.fst := by
  induction m with
  | nil => simp [dlookup]
  | cons p rest ih =>
    by_cases hp : p.1 = k
    · simp [dlookup, hp]
    · have : ¬ (k = p.1) := fun hc => hp hc.symm
      simp [dlookup, hp, ih, this]

theorem dlookup_derase_self (k : α) (m : List (α × β))
    (h : (m.map Prod.fst).Nodup) : dlookup k (derase k m) = none := by
  rw [dlookup_eq_none_iff]
  induction m with
  | nil => simp [derase]
  | cons p rest ih =>
    simp only [List.map_cons, List.nodup_cons] at h
    by_cases hp : p.1 = k
    · subst hp
      simpa [derase] using h.1
    · have : ¬ (k = p.1) := fun hc => hp hc.symm
      simp [derase, hp, this, ih h.2]

theorem dlookup_derase_ne (k k' : α) (m : List (α × β)) (h : k ≠ k') :
    dlookup k' (derase k m) = dlookup k' m := by
  induction m with
  | nil => rfl
  | cons p rest ih =>
    by_cases hp : p.1 = k
    · subst hp
      simp [derase, dlookup, h]
    · simp only [derase, if_neg hp, dlookup_cons]
      by_cases hp' : p.1 = k' <;> simp [hp', ih]

theorem dlookup_isSome_of_mem_keys (k : α) (m : List (α × β))
    (h : k ∈ m.map Prod.fst) : (dlookup k m).isSome := by
  induction m with
  | nil => simp at h
  | cons p rest ih =>
    simp only [List.map_cons, List.mem_cons] at h
    by_cases hp : p.1 = k
    · simp [dlookup, hp]
    · rcases h with h | h
      · exact absurd h.symm hp
      · simp [dlookup, hp, ih h]

theorem mem_keys_of_dlookup_isSome (k : α) (m : List (α × β))
    (h : (dlookup k m).isSome) : k ∈ m.map Prod.fst := by
  induction m with
  | nil => simp [dlookup] at h
  | cons p rest ih =>
    by_cases hp : p.1 = k
    · simp [hp]
    · simp only [dlookup_cons, if_neg hp] at h
      simp [ih h]

theorem dlookup_of_mem (k : α) (v : β) (m : List (α × β))
    (hmem : (k, v) ∈ m) (hnd : (m.map Prod.fst).Nodup) :
    dlookup k m = some v := by
  induction m with
  | nil => simp at hmem
  | cons p rest ih =>
    simp only [List.map_cons, List.nodup_cons] at hnd
    rcases List.mem_cons.mp hmem with h | h
    · subst h
      simp [dlookup]
    · have hp : p.1 ≠ k := by
        intro hc
        exact hnd.1 (hc ▸ (List.mem_map.mpr ⟨(k, v), h, rfl⟩))
      simp [dlookup, hp, ih h hnd.2]

end DictLemmas

/-! ## Data model (from `src/providers/consensus/typings.py` usage and
`src/web3py/extensions/lido_validators.py`) -/

/-- `src/constants.py`: the far-future epoch sentinel, `2^64 - 1`. -/
def FAR_FUTURE_EPOCH : Nat := 2 ^ 64 - 1

/-- `src/constants.py`: `SHARD_COMMITTEE_PERIOD` (256 epochs). -/
def SHARD_COMMITTEE_PERIOD : Nat := 256

/-- The minimum balance increment (`EFFECTIVE_BALANCE_INCREMENT`), `1 * 10^9` Gwei,
pinned by `src/tests/utils/test_validator_state_utils.py`. -/
def EFFECTIVE_BALANCE_INCREMENT : Nat := 10 ^ 9

/-- Validator lifecycle status enum (decorative for the embedded computations:
none of the embedded functions branch on it). -/
inductive ValidatorStatus where
  | pending_initialized | pending_queued
  | active_ongoing | active_exiting | active_slashed
  | exited_unslashed | exited_slashed
  | withdrawal_possible | withdrawal_done
  deriving DecidableEq, Repr

/-- Nested `ValidatorState` record; numeric-string fields of the Python record
are modelled as `Nat` (the code always reads them through `int(...)`). -/
structure ValidatorState where
  pubkey : String
  withdrawal_credentials : String
  effective_balance : Nat
  slashed : Bool
  activation_eligibility_epoch : Nat
  activation_epoch : Nat
  exit_epoch : Nat
  withdrawable_epoch : Nat
  deriving DecidableEq, Repr

/-- Consensus-layer `Validator` record. -/
structure Validator where
  index : Nat
  balance : Nat
  status : ValidatorStatus
  validator : ValidatorState
  deriving DecidableEq, Repr

/-- A managed key record (`LidoKey` / `CatalistKey`): public key plus
(module address, operator index) ownership. -/
structure LidoKey where
  key : String
  depositSignature : String
  operatorIndex : Nat
  used : Bool
  moduleAddress : String
  deriving DecidableEq, Repr

/-- `LidoValidator` (new module): consensus validator merged with its managed key. -/
structure LidoValidator extends Validator where
  lido_id : LidoKey
  deriving DecidableEq, Repr

/-- `CatalistValidator` (`src/services/validator_state.py` uses the field name
`catalist_id` for the merged key). -/
structure CatalistValidator extends Validator where
  catalist_id : LidoKey
  deriving DecidableEq, Repr

/-- Old-module `LidoValidator` `TypedDict` (`src/web3_extentions/lido_validators.py`):
a pair of the managed key and the raw consensus validator. -/
structure OldLidoValidator where
  key : LidoKey
  validator : Validator
  deriving DecidableEq, Repr

/-- Global node-operator index: (staking-module id, operator id). -/
abbrev NodeOperatorGlobalIndex := Nat × Nat

/-- `StakingModule` record. -/
structure StakingModule where
  id : Nat
  staking_module_address : String
  staking_module_fee : Nat
  treasury_fee : Nat
  target_share : Nat
  status : Nat
  name : String
  last_deposit_at : Nat
  last_deposit_block : Nat
  exited_validators_count : Nat
  deriving DecidableEq, Repr

/-- `NodeOperator` record. -/
structure NodeOperator where
  id : Nat
  is_active : Bool
  is_target_limit_active : Bool
  target_validators_count : Nat
  stuck_validators_count : Nat
  refunded_validators_count : Nat
  stuck_penalty_end_timestamp : Nat
  total_exited_validators : Nat
  total_deposited_validators : Nat
  depositable_validators_count : Nat
  staking_module : StakingModule
  deriving DecidableEq, Repr

/-- The operator's global index `(operator.staking_module.id, operator.id)`. -/
def NodeOperator.global_index (op : NodeOperator) : NodeOperatorGlobalIndex :=
  (op.staking_module.id, op.id)

/-- Chain configuration (`ChainConfig`). -/
structure ChainConfig where
  slots_per_epoch : Nat
  seconds_per_slot : Nat
  genesis_time : Nat
  deriving DecidableEq, Repr

/-- `ReferenceBlockStamp`, restricted to the fields the embedded computations
read (the hash/root/timestamp fields are provider identifiers, never used in
the arithmetic below). -/
structure ReferenceBlockStamp where
  ref_slot : Nat
  ref_epoch : Nat
  deriving DecidableEq, Repr

/-! ## Validator predicate library

`src/utils/validator_state.py` is not among the sources; the predicates are
modelled from the spec (§4.1), cross-checked against
`src/tests/utils/test_validator_state_utils.py`. -/

/-- Modelled from the spec: `src/utils/validator_state.py` is absent from the
sources; §4.1 `is_active_validator(v, epoch)`: true iff
`activation_epoch ≤ epoch < exit_epoch`. -/
def is_active_validator (v : Validator) (epoch : Nat) : Bool :=
  v.validator.activation_epoch ≤ epoch && epoch < v.validator.exit_epoch

/-- Modelled from the spec: `src/utils/validator_state.py` is absent from the
sources; §4.1 `is_exited_validator(v, epoch)`: true iff `exit_epoch ≤ epoch`
and `exit_epoch ≠ far-future`. -/
def is_exited_validator (v : Validator) (epoch : Nat) : Bool :=
  v.validator.exit_epoch ≤ epoch && v.validator.exit_epoch ≠ FAR_FUTURE_EPOCH

/-- Modelled from the spec: `src/utils/validator_state.py` is absent from the
sources; §4.1 `is_on_exit(v)`: true iff `exit_epoch ≠ far-future`. -/
def is_on_exit (v : Validator) : Bool :=
  v.validator.exit_epoch ≠ FAR_FUTURE_EPOCH

/-- Modelled from the spec: `src/utils/validator_state.py` is absent from the
sources; §4.1 `is_validator_eligible_to_exit(v, epoch)`: true iff validator is
active at `epoch` and has no exit scheduled.  The epoch argument is an `Int`
because the caller in `validator_state.py` passes
`blockstamp.ref_epoch - delayed_timeout_in_epoch`, which may be negative. -/
def is_validator_eligible_to_exit (v : Validator) (epoch : Int) : Bool :=
  ((v.validator.activation_epoch : Int) ≤ epoch && epoch < (v.validator.exit_epoch : Int))
    && v.validator.exit_epoch = FAR_FUTURE_EPOCH

/-- Modelled from the spec: `src/utils/validator_state.py` is absent from the
sources; §4.2 first half, pinned by `test_calculate_active_effective_balance_sum`
(which asserts `0` for the empty list and for a list with no active validator):
the raw sum of `effective_balance` over validators active at `epoch`, with no
floor. -/
def calculate_active_effective_balance_sum (validators : List Validator) (epoch : Nat) : Nat :=
  validators.foldl
    (fun total v => if is_active_validator v epoch then total + v.validator.effective_balance else total)
    0

/-- Modelled from the spec: `src/utils/validator_state.py` is absent from the
sources; the floored total pinned by `test_calculate_total_active_effective_balance`
(empty input yields `1 * 10^9`): the active effective-balance sum, replaced by
one `EFFECTIVE_BALANCE_INCREMENT` when the sum is zero. -/
def calculate_total_active_effective_balance (validators : List Validator) (epoch : Nat) : Nat :=
  let s := calculate_active_effective_balance_sum validators epoch
  if s = 0 then EFFECTIVE_BALANCE_INCREMENT else s

/-! ## Stuck/exited validator classifier (`src/services/validator_state.py`)

External provider reads (validators by operator, last-requested exit
indices, recent exit-request pubkeys/indices, on-chain timeouts) are passed
in as arguments; the functions below are the deterministic computations the
Python methods perform on that data.  Last-requested exit indices are `Int`
because the contract call returns `-1` for operators never asked to exit. -/

/-- One step of the `reduce(sum_stuck_validators, validators, 0)` fold inside
`get_catalist_newly_stuck_validators` (`validator_state.py` lines 65-86).
The dict access `ejected_index[global_no_index]` happens inside the closure,
so the `KeyError` (modelled by `none`) is raised per folded validator. -/
def sum_stuck_validators
    (ejected_index : List (NodeOperatorGlobalIndex × Int))
    (recently_requested_to_exit_pubkeys : List String)
    (delinquent_timeout_in_slots : Nat)
    (chain_config : ChainConfig) (blockstamp : ReferenceBlockStamp)
    (global_no_index : NodeOperatorGlobalIndex)
    (total : Nat) (validator : CatalistValidator) : Option Nat :=
  match dlookup global_no_index ejected_index with
  | none => none
  | some ej =>
    if (validator.index : Int) > ej then some total
    else if validator.validator.exit_epoch ≠ FAR_FUTURE_EPOCH then some total
    else if recently_requested_to_exit_pubkeys.contains validator.catalist_id.key then some total
    else
      let validator_available_to_exit_epoch :=
        validator.validator.activation_epoch + SHARD_COMMITTEE_PERIOD
      let last_slot_to_exit :=
        validator_available_to_exit_epoch * chain_config.slots_per_epoch
          + delinquent_timeout_in_slots
      if blockstamp.ref_slot ≤ last_slot_to_exit then some total
      else some (total + 1)

/-- The pre-suppression stuck count of one operator:
`reduce(sum_stuck_validators, validators, 0)`. -/
def operator_stuck_count
    (ejected_index : List (NodeOperatorGlobalIndex × Int))
    (recently_requested_to_exit_pubkeys : List String)
    (delinquent_timeout_in_slots : Nat)
    (chain_config : ChainConfig) (blockstamp : ReferenceBlockStamp)
    (global_no_index : NodeOperatorGlobalIndex)
    (validators : List CatalistValidator) : Option Nat :=
  validators.foldlM
    (sum_stuck_validators ejected_index recently_requested_to_exit_pubkeys
      delinquent_timeout_in_slots chain_config blockstamp global_no_index)
    0

/-- The pre-suppression `result` dict of `get_catalist_newly_stuck_validators`
(lines 62-92): one entry per operator of the validators-by-operator mapping,
in mapping order. -/
def stuck_validators_counts
    (catalist_validators_by_no : List (NodeOperatorGlobalIndex × List CatalistValidator))
    (ejected_index : List (NodeOperatorGlobalIndex × Int))
    (recently_requested_to_exit_pubkeys : List String)
    (delinquent_timeout_in_slots : Nat)
    (chain_config : ChainConfig) (blockstamp : ReferenceBlockStamp) :
    Option (List (NodeOperatorGlobalIndex × Nat)) :=
  catalist_validators_by_no.mapM fun p =>
    (operator_stuck_count ejected_index recently_requested_to_exit_pubkeys
      delinquent_timeout_in_slots chain_config blockstamp p.1 p.2).map
      (fun c => (p.1, c))

/-- The delta-suppression loop shared by `get_catalist_newly_stuck_validators`
(lines 97-102, `recorded = stuck_validators_count`) and
`get_catalist_newly_exited_validators` (lines 149-154,
`recorded = total_exited_validators`): for each operator of the metadata list
the gauge write reads `result[global_index]` (a missing key raises), and the
entry is deleted when it equals the operator's recorded count. -/
def suppress_unchanged (recorded : NodeOperator → Nat)
    (node_operators : List NodeOperator)
    (result : List (NodeOperatorGlobalIndex × Nat)) :
    Option (List (NodeOperatorGlobalIndex × Nat)) :=
  node_operators.foldlM
    (fun res op =>
      (dlookup op.global_index res).bind fun c =>
        if c = recorded op then some (derase op.global_index res) else some res)
    result

/-- `get_catalist_newly_stuck_validators` (lines 57-104): pre-suppression
counts followed by delta suppression against `stuck_validators_count`. -/
def get_catalist_newly_stuck_validators
    (catalist_validators_by_no : List (NodeOperatorGlobalIndex × List CatalistValidator))
    (ejected_index : List (NodeOperatorGlobalIndex × Int))
    (recently_requested_to_exit_pubkeys : List String)
    (delinquent_timeout_in_slots : Nat)
    (chain_config : ChainConfig) (blockstamp : ReferenceBlockStamp)
    (node_operators : List NodeOperator) :
    Option (List (NodeOperatorGlobalIndex × Nat)) := do
  let result ← stuck_validators_counts catalist_validators_by_no ejected_index
    recently_requested_to_exit_pubkeys delinquent_timeout_in_slots chain_config blockstamp
  suppress_unchanged (fun op => op.stuck_validators_count) node_operators result

/-- `get_exited_catalist_validators` (lines 159-172): per operator, the fold
`total + int(is_exited_validator(validator, ref_epoch))` over its validators. -/
def get_exited_catalist_validators
    (catalist_validators_by_no : List (NodeOperatorGlobalIndex × List CatalistValidator))
    (ref_epoch : Nat) : List (NodeOperatorGlobalIndex × Nat) :=
  catalist_validators_by_no.map fun p =>
    (p.1,
      p.2.foldl
        (fun total validator =>
          total + (if is_exited_validator validator.toValidator ref_epoch then 1 else 0))
        0)

/-- `get_catalist_newly_exited_validators` (lines 144-157): the exited counts
followed by delta suppression against `total_exited_validators`. -/
def get_catalist_newly_exited_validators
    (catalist_validators_by_no : List (NodeOperatorGlobalIndex × List CatalistValidator))
    (ref_epoch : Nat) (node_operators : List NodeOperator) :
    Option (List (NodeOperatorGlobalIndex × Nat)) :=
  suppress_unchanged (fun op => op.total_exited_validators) node_operators
    (get_exited_catalist_validators catalist_validators_by_no ref_epoch)

/-! ## Recently-requested-but-not-exited detector
(`get_recently_requested_but_not_exited_validators`, lines 188-251). -/

/-- `validator_requested_to_exit` (line 212): `validator.index <= ejected`. -/
def validator_requested_to_exit (ej : Int) (validator : CatalistValidator) : Bool :=
  (validator.index : Int) ≤ ej

/-- `validator_recently_requested_to_exit` (line 215): the validator's index is
in the operator's recent exit-request index set. -/
def validator_recently_requested_to_exit (recent : List Nat) (validator : CatalistValidator) : Bool :=
  recent.contains validator.index

/-- `validator_eligible_to_exit` (line 218): eligibility evaluated at
`ref_epoch - delayed_timeout_in_slots // slots_per_epoch`. -/
def validator_eligible_to_exit (delayed_timeout_in_slots : Nat)
    (chain_config : ChainConfig) (blockstamp : ReferenceBlockStamp)
    (validator : CatalistValidator) : Bool :=
  let delayed_timeout_in_epoch := delayed_timeout_in_slots / chain_config.slots_per_epoch
  is_validator_eligible_to_exit validator.toValidator
    ((blockstamp.ref_epoch : Int) - (delayed_timeout_in_epoch : Int))

/-- `is_validator_recently_requested_but_not_exited` (lines 222-235), with the
dict accesses of the nested predicates made explicit: `ejected_indexes[gi]` is
read first (a missing key raises), `recent_indexes[gi]` only once the
validator is requested and not on exit. -/
def is_validator_recently_requested_but_not_exited
    (ejected_indexes : List (NodeOperatorGlobalIndex × Int))
    (recent_indexes : List (NodeOperatorGlobalIndex × List Nat))
    (delayed_timeout_in_slots : Nat)
    (chain_config : ChainConfig) (blockstamp : ReferenceBlockStamp)
    (global_index : NodeOperatorGlobalIndex)
    (validator : CatalistValidator) : Option Bool :=
  match dlookup global_index ejected_indexes with
  | none => none
  | some ej =>
    if ¬ validator_requested_to_exit ej validator then some false
    else if is_on_exit validator.toValidator then some false
    else
      match dlookup global_index recent_indexes with
      | none => none
      | some recent =>
        if validator_recently_requested_to_exit recent validator then some true
        else if ¬ validator_eligible_to_exit delayed_timeout_in_slots chain_config blockstamp validator then some true
        else some false

/-- `is_validator_delayed` (lines 237-242): requested, not on exit, and not
recently requested — note eligibility is NOT consulted. -/
def is_validator_delayed
    (ejected_indexes : List (NodeOperatorGlobalIndex × Int))
    (recent_indexes : List (NodeOperatorGlobalIndex × List Nat))
    (global_index : NodeOperatorGlobalIndex)
    (validator : CatalistValidator) : Option Bool :=
  match dlookup global_index ejected_indexes with
  | none => none
  | some ej =>
    if ¬ validator_requested_to_exit ej validator then some false
    else if is_on_exit validator.toValidator then some false
    else
      (dlookup global_index recent_indexes).map
        (fun recent => ! validator_recently_requested_to_exit recent validator)

/-- Python's `filter` over a fallible predicate: predicates are evaluated left
to right and the first raised `KeyError` aborts the whole computation. -/
def filterOpt {σ : Type} (p : σ → Option Bool) : List σ → Option (List σ)
  | [] => some []
  | x :: xs => do
    let b ← p x
    let rest ← filterOpt p xs
    if b then some (x :: rest) else some rest

/-- `get_recently_requested_but_not_exited_validators` (lines 188-251).  The
first component is the returned flattened list of recently-requested,
not-yet-exited validators; the second records, per operator in mapping order,
the delayed-validator count written to the `ACCOUNTING_DELAYED_VALIDATORS`
gauge. -/
def get_recently_requested_but_not_exited_validators
    (catalist_validators_by_operator : List (NodeOperatorGlobalIndex × List CatalistValidator))
    (ejected_indexes : List (NodeOperatorGlobalIndex × Int))
    (recent_indexes : List (NodeOperatorGlobalIndex × List Nat))
    (delayed_timeout_in_slots : Nat)
    (chain_config : ChainConfig) (blockstamp : ReferenceBlockStamp) :
    Option (List CatalistValidator × List (NodeOperatorGlobalIndex × Nat)) :=
  catalist_validators_by_operator.foldlM
    (fun acc p => do
      let filtered ← filterOpt
        (is_validator_recently_requested_but_not_exited ejected_indexes recent_indexes
          delayed_timeout_in_slots chain_config blockstamp p.1) p.2
      let delayed ← filterOpt (is_validator_delayed ejected_indexes recent_indexes p.1) p.2
      some (acc.1 ++ filtered, acc.2 ++ [(p.1, delayed.length)]))
    ([], [])

/-! ## Validator/key merging and grouping
(`src/web3py/extensions/lido_validators.py` and the old
`src/web3_extentions/lido_validators.py`). -/

/-- The dict comprehension
`{validator.validator.pubkey: validator for validator in validators}` shared
by both merge functions (later validators with the same pubkey overwrite). -/
def validators_keys_dict (validators : List Validator) : List (String × Validator) :=
  validators.foldl (fun d v => dinsert v.validator.pubkey v d) []

/-- `merge_validators_with_keys` (`src/web3py/extensions/lido_validators.py`
lines 84-98): for each managed key in order, append the validator bearing that
pubkey (if any) tagged with the key. -/
def merge_validators_with_keys (keys : List LidoKey) (validators : List Validator) :
    List LidoValidator :=
  let d := validators_keys_dict validators
  keys.foldl
    (fun acc key =>
      match dlookup key.key d with
      | some v => acc ++ [{ toValidator := v, lido_id := key }]
      | none => acc)
    []

/-- Old-module `_merge_validators` (`src/web3_extentions/lido_validators.py`
lines 30-44): same selection, producing the `TypedDict`-shaped record. -/
def _merge_validators (keys : List LidoKey) (validators : List Validator) :
    List OldLidoValidator :=
  let d := validators_keys_dict validators
  keys.foldl
    (fun acc key =>
      match dlookup key.key d with
      | some v => acc ++ [⟨key, v⟩]
      | none => acc)
    []

/-- The dict comprehension of operator global indices to empty lists
(`lido_validators.py` lines 106-108). -/
def empty_operator_map (no_operators : List NodeOperator) :
    List (NodeOperatorGlobalIndex × List LidoValidator) :=
  no_operators.foldl (fun m op => dinsert op.global_index [] m) []

/-- The dict comprehension of staking-module addresses to module ids
(`lido_validators.py` lines 110-113). -/
def staking_module_address_map (no_operators : List NodeOperator) : List (String × Nat) :=
  no_operators.foldl
    (fun m op => dinsert op.staking_module.staking_module_address op.staking_module.id m) []

/-- The (module id, operator id) pair derived for a merged validator
(`lido_validators.py` lines 116-119); `none` models the `KeyError` raised when
the validator's module address is unknown. -/
def derived_global_index (no_operators : List NodeOperator) (validator : LidoValidator) :
    Option NodeOperatorGlobalIndex :=
  (dlookup validator.lido_id.moduleAddress (staking_module_address_map no_operators)).map
    (fun module_id => (module_id, validator.lido_id.operatorIndex))

/-- `get_lido_validators_by_node_operators` (`lido_validators.py` lines
100-129): start from the empty per-operator map, then append each merged
validator to its derived operator's list when the pair is a known key, and
skip it (with a warning) otherwise. -/
def get_lido_validators_by_node_operators
    (merged_validators : List LidoValidator) (no_operators : List NodeOperator) :
    Option (List (NodeOperatorGlobalIndex × List LidoValidator)) :=
  let addr := staking_module_address_map no_operators
  merged_validators.foldlM
    (fun m v =>
      (dlookup v.lido_id.moduleAddress addr).bind fun module_id =>
        let global_no_id := (module_id, v.lido_id.operatorIndex)
        if (dlookup global_no_id m).isSome then
          some (dupdate global_no_id (fun l => l ++ [v]) m)
        else
          some m)
    (empty_operator_map no_operators)

/-! ## Concrete fixtures (used by witnesses and counterexamples) -/

/-- A concrete Catalist validator with the given index, activation epoch,
exit epoch and public key. -/
def sampleValidator (idx act exi : Nat) (pk : String) : CatalistValidator :=
  ⟨⟨idx, 32, .active_ongoing, ⟨pk, "0x01ba", 32, false, 0, act, exi, 0⟩⟩,
   ⟨pk, "sig", 0, true, "0xmod1"⟩⟩

/-- A concrete staking module with id 1. -/
def sampleModule : StakingModule := ⟨1, "0xmod1", 500, 500, 100, 0, "curated", 0, 0, 0⟩

/-- A concrete node operator in `sampleModule` with the given id, recorded
stuck count and recorded total-exited count. -/
def sampleOperator (oid stuck exited : Nat) : NodeOperator :=
  ⟨oid, true, false, 0, stuck, 0, 0, exited, 10, 5, sampleModule⟩

/-- A concrete chain configuration: 32 slots per epoch, 12 seconds per slot. -/
def sampleChainConfig : ChainConfig := ⟨32, 12, 0⟩

/-- A concrete reference blockstamp: slot 100000, epoch 3125. -/
def sampleBlockStamp : ReferenceBlockStamp := ⟨100000, 3125⟩

/-! ## General lemmas -/

theorem foldl_count_indicator {σ : Type} (p : σ → Bool) (vs : List σ) (n : Nat) :
    vs.foldl (fun total v => total + (if p v then 1 else 0)) n = n + vs.countP p := by
  induction vs generalizing n with
  | nil => simp
  | cons v rest ih =>
    simp only [List.foldl_cons, ih, List.countP_cons]
    by_cases h : p v
    · simp [h]
      omega
    · simp [h]

theorem dlookup_map_snd_of_mem {β γ : Type} [DecidableEq α]
    (g : α × β → γ) (k : α) (v : β) (m : List (α × β))
    (hmem : (k, v) ∈ m) (hnd : (m.map Prod.fst).Nodup) :
    dlookup k (m.map (fun p => (p.1, g p))) = some (g (k, v)) := by
  induction m with
  | nil => simp at hmem
  | cons p rest ih =>
    simp only [List.map_cons, List.nodup_cons] at hnd
    rcases List.mem_cons.mp hmem with h | h
    · subst h
      simp [dlookup]
    · have hp : p.1 ≠ k := by
        intro hc
        exact hnd.1 (hc ▸ (List.mem_map.mpr ⟨(k, v), h, rfl⟩))
      simp [dlookup, hp, ih h hnd.2]

/-! ## Claim theorems -/

/-- C1: a validator contributes to its operator's pre-suppression stuck count
inside `get_catalist_newly_stuck_validators` iff its index is at most the
operator's last-requested-exit index, its exit epoch is the far-future
sentinel, its public key is not among the recently-requested-to-exit pubkeys,
and `(activation_epoch + SHARD_COMMITTEE_PERIOD) * slots_per_epoch +
delinquent_timeout_in_slots` is strictly below the reference slot. -/
theorem stuck_count_iff_four_conditions
    (ejected_index : List (NodeOperatorGlobalIndex × Int))
    (recent : List String) (dt : Nat)
    (cfg : ChainConfig) (bs : ReferenceBlockStamp)
    (gi : NodeOperatorGlobalIndex) (e : Int)
    (validators : List CatalistValidator)
    (he : dlookup gi ejected_index = some e) :
    operator_stuck_count ejected_index recent dt cfg bs gi validators =
      some (validators.countP (fun v =>
        decide ((v.index : Int) ≤ e) &&
        (v.validator.exit_epoch == FAR_FUTURE_EPOCH) &&
        (! recent.contains v.catalist_id.key) &&
        decide ((v.validator.activation_epoch + SHARD_COMMITTEE_PERIOD) * cfg.slots_per_epoch + dt
          < bs.ref_slot))) := by
  have main : ∀ (vs : List CatalistValidator) (total : Nat),
      vs.foldlM (sum_stuck_validators ejected_index recent dt cfg bs gi) total =
        some (total + vs.countP (fun v =>
          decide ((v.index : Int) ≤ e) &&
          (v.validator.exit_epoch == FAR_FUTURE_EPOCH) &&
          (! recent.contains v.catalist_id.key) &&
          decide ((v.validator.activation_epoch + SHARD_COMMITTEE_PERIOD) * cfg.slots_per_epoch + dt
            < bs.ref_slot))) := by
    intro vs
    induction vs with
    | nil => intro total; simp
    | cons v rest ih =>
      intro total
      rw [List.foldlM_cons]
      rw [sum_stuck_validators, he]
      by_cases h1 : (v.index : Int) > e
      · have c1 : decide ((v.index : Int) ≤ e) = false := by
          simp [not_le.mpr h1]
        simp only [if_pos h1, Option.some_bind, ih, List.countP_cons, c1, Bool.false_and]
        simp
      · by_cases h2 : v.validator.exit_epoch ≠ FAR_FUTURE_EPOCH
        · have c2 : (v.validator.exit_epoch == FAR_FUTURE_EPOCH) = false := by
            simpa using h2
          simp only [if_neg h1, if_pos h2, Option.some_bind, ih, List.countP_cons, c2,
            Bool.and_false, Bool.false_and]
          simp
        · by_cases h3 : recent.contains v.catalist_id.key
          · have c3 : (! recent.contains v.catalist_id.key) = false := by
              simp only [h3, Bool.not_true]
            simp only [if_neg h1, if_neg h2, if_pos h3, Option.some_bind, ih, List.countP_cons,
              c3, Bool.and_false, Bool.false_and]
            simp
          · by_cases h4 : bs.ref_slot ≤
                (v.validator.activation_epoch + SHARD_COMMITTEE_PERIOD) * cfg.slots_per_epoch + dt
            · have c4 : decide ((v.validator.activation_epoch + SHARD_COMMITTEE_PERIOD)
                  * cfg.slots_per_epoch + dt < bs.ref_slot) = false := by
                simp [not_lt.mpr h4]
              simp only [if_neg h1, if_neg h2, if_neg h3, if_pos h4, Option.some_bind, ih,
                List.countP_cons, c4, Bool.and_false]
              simp
            · have c1 : decide ((v.index : Int) ≤ e) = true := by
                simp [not_lt.mp h1]
              have c2 : (v.validator.exit_epoch == FAR_FUTURE_EPOCH) = true := by
                simpa using not_not.mp h2
              have c3 : (! recent.contains v.catalist_id.key) = true := by
                have hb : recent.contains v.catalist_id.key = false := Bool.eq_false_iff.mpr h3
                simp only [hb, Bool.not_false]
              have c4 : decide ((v.validator.activation_epoch + SHARD_COMMITTEE_PERIOD)
                  * cfg.slots_per_epoch + dt < bs.ref_slot) = true := by
                simp [not_le.mp h4]
              simp only [if_neg h1, if_neg h2, if_neg h3, if_neg h4, Option.some_bind, ih,
                List.countP_cons, c1, c2, c3, c4, Bool.and_true, Bool.true_and]
              simp
              omega
  simpa using main validators 0

/-- C1 witness: at a concrete input (operator `(1,0)` with ejected index 5, a
stuck validator and an already-exiting one) the pre-suppression count is 1. -/
theorem stuck_count_iff_four_conditions_witness :
    operator_stuck_count [((1, 0), (5 : Int))] [] 100 sampleChainConfig sampleBlockStamp (1, 0)
      [sampleValidator 0 0 FAR_FUTURE_EPOCH "k0", sampleValidator 1 0 5 "k1"] = some 1 :=
  (stuck_count_iff_four_conditions [((1, 0), (5 : Int))] [] 100 sampleChainConfig
    sampleBlockStamp (1, 0) 5
    [sampleValidator 0 0 FAR_FUTURE_EPOCH "k0", sampleValidator 1 0 5 "k1"]
    (by decide)).trans (by decide)

/-- C5: `get_exited_catalist_validators` has exactly the key set of the input
mapping, and maps every operator key to the number of its validators
satisfying `is_exited_validator` at the reference epoch. -/
theorem exited_counts_characterization
    (catalist_validators_by_no : List (NodeOperatorGlobalIndex × List CatalistValidator))
    (ref_epoch : Nat) :
    ((get_exited_catalist_validators catalist_validators_by_no ref_epoch).map Prod.fst
        = catalist_validators_by_no.map Prod.fst)
    ∧ (∀ gi vs, (gi, vs) ∈ catalist_validators_by_no →
        ((catalist_validators_by_no.map Prod.fst).Nodup) →
        dlookup gi (get_exited_catalist_validators catalist_validators_by_no ref_epoch)
          = some (vs.countP (fun v => is_exited_validator v.toValidator ref_epoch))) := by
  constructor
  · simp [get_exited_catalist_validators]
  · intro gi vs hmem hnd
    have h := dlookup_map_snd_of_mem
      (fun p => p.2.foldl
        (fun total validator =>
          total + (if is_exited_validator validator.toValidator ref_epoch then 1 else 0)) 0)
      gi vs catalist_validators_by_no hmem hnd
    rw [get_exited_catalist_validators]
    simpa [foldl_count_indicator] using h

/-- C5 witness: one operator with one exited and one still-active validator is
mapped to count 1, with the same singleton key set. -/
theorem exited_counts_characterization_witness :
    dlookup (1, 0) (get_exited_catalist_validators
      [((1, 0), [sampleValidator 0 0 100 "a", sampleValidator 1 0 FAR_FUTURE_EPOCH "b"])] 3125)
      = some 1 :=
  ((exited_counts_characterization
    [((1, 0), [sampleValidator 0 0 100 "a", sampleValidator 1 0 FAR_FUTURE_EPOCH "b"])] 3125).2
    (1, 0) [sampleValidator 0 0 100 "a", sampleValidator 1 0 FAR_FUTURE_EPOCH "b"]
    (by decide) (by decide)).trans (by decide)

/-- C6 counterexample: on the empty validator list
`calculate_active_effective_balance_sum` returns `0`, not one
minimum-balance-increment unit — exactly what
`test_calculate_active_effective_balance_sum` asserts. -/
theorem active_effective_balance_sum_empty_is_zero :
    calculate_active_effective_balance_sum [] 15000 = 0
    ∧ calculate_active_effective_balance_sum [] 15000 ≠ EFFECTIVE_BALANCE_INCREMENT := by
  constructor
  · rfl
  · intro h
    simp [calculate_active_effective_balance_sum, EFFECTIVE_BALANCE_INCREMENT] at h

theorem suppress_unchanged_lookup (recorded : NodeOperator → Nat) :
    ∀ (ops : List NodeOperator) (res out : List (NodeOperatorGlobalIndex × Nat)),
      (res.map Prod.fst).Nodup →
      (ops.map NodeOperator.global_index).Nodup →
      suppress_unchanged recorded ops res = some out →
      (∀ op ∈ ops, ∃ c, dlookup op.global_index res = some c ∧
        dlookup op.global_index out = if c = recorded op then none else some c)
      ∧ (∀ k, k ∉ ops.map NodeOperator.global_index → dlookup k out = dlookup k res) := by
  intro ops
  induction ops with
  | nil =>
    intro res out _ _ h
    simp only [suppress_unchanged, List.foldlM_nil, Option.pure_def, Option.some.injEq] at h
    subst h
    exact ⟨by simp, fun k _ => rfl⟩
  | cons op rest ih =>
    intro res out hres hops h
    rw [suppress_unchanged, List.foldlM_cons] at h
    simp only [List.map_cons, List.nodup_cons] at hops
    cases hl : dlookup op.global_index res with
    | none =>
      rw [hl] at h
      simp at h
    | some c =>
      rw [hl] at h
      simp only [Option.some_bind] at h
      by_cases hc : c = recorded op
      · rw [if_pos hc] at h
        simp only [Option.bind_eq_bind, Option.some_bind] at h
        have hres' : ((derase op.global_index res).map Prod.fst).Nodup :=
          keys_derase_nodup _ _ hres
        have hr := ih (derase op.global_index res) out hres' hops.2 h
        refine ⟨?_, ?_⟩
        · intro op' hmem'
          rcases List.mem_cons.mp hmem' with hop | hop
          · subst hop
            refine ⟨c, hl, ?_⟩
            rw [if_pos hc]
            rw [hr.2 op'.global_index hops.1]
            exact dlookup_derase_self _ _ hres
          · rcases hr.1 op' hop with ⟨c', hc1, hc2⟩
            have hne : op.global_index ≠ op'.global_index := by
              intro hcontra
              exact hops.1 (hcontra ▸ List.mem_map.mpr ⟨op', hop, rfl⟩)
            refine ⟨c', ?_, hc2⟩
            rw [← dlookup_derase_ne op.global_index op'.global_index res hne]
            exact hc1
        · intro k hk
          simp only [List.map_cons, List.mem_cons, not_or] at hk
          rw [hr.2 k hk.2]
          exact dlookup_derase_ne _ _ _ (fun hcontra => hk.1 hcontra.symm)
      · rw [if_neg hc] at h
        simp only [Option.bind_eq_bind, Option.some_bind] at h
        have hr := ih res out hres hops.2 h
        refine ⟨?_, ?_⟩
        · intro op' hmem'
          rcases List.mem_cons.mp hmem' with hop | hop
          · subst hop
            refine ⟨c, hl, ?_⟩
            rw [if_neg hc, hr.2 op'.global_index hops.1, hl]
          · exact hr.1 op' hop
        · intro k hk
          simp only [List.map_cons, List.mem_cons, not_or] at hk
          exact hr.2 k hk.2

theorem stuck_validators_counts_keys
    (catalist_validators_by_no : List (NodeOperatorGlobalIndex × List CatalistValidator))
    (ejected_index : List (NodeOperatorGlobalIndex × Int))
    (recent : List String) (dt : Nat) (cfg : ChainConfig) (bs : ReferenceBlockStamp)
    (counts : List (NodeOperatorGlobalIndex × Nat))
    (h : stuck_validators_counts catalist_validators_by_no ejected_index recent dt cfg bs
      = some counts) :
    counts.map Prod.fst = catalist_validators_by_no.map Prod.fst := by
  induction catalist_validators_by_no generalizing counts with
  | nil =>
    simp only [stuck_validators_counts, List.mapM_nil, Option.pure_def, Option.some.injEq] at h
    subst h
    rfl
  | cons p rest ih =>
    rw [stuck_validators_counts, List.mapM_cons] at h
    cases hp : (operator_stuck_count ejected_index recent dt cfg bs p.1 p.2).map
        (fun c => (p.1, c)) with
    | none =>
      rw [hp] at h
      simp at h
    | some b =>
      rw [hp] at h
      cases hrest : rest.mapM (fun q =>
          (operator_stuck_count ejected_index recent dt cfg bs q.1 q.2).map
            (fun c => (q.1, c))) with
      | none =>
        rw [hrest] at h
        simp at h
      | some bs' =>
        rw [hrest] at h
        simp only [Option.bind_eq_bind, Option.some_bind, Option.pure_def,
          Option.some.injEq] at h
        subst h
        have hb : b.1 = p.1 := by
          cases hq : operator_stuck_count ejected_index recent dt cfg bs p.1 p.2 with
          | none => rw [hq] at hp; simp at hp
          | some c =>
            rw [hq] at hp
            simp only [Option.map_some', Option.some.injEq] at hp
            rw [← hp]
        simp only [List.map_cons, hb]
        rw [ih bs' hrest]

/-- C2: an operator of the metadata list appears in the mapping returned by
`get_catalist_newly_stuck_validators` (respectively
`get_catalist_newly_exited_validators`) iff its freshly computed stuck count
(respectively exited count) differs from its recorded
`stuck_validators_count` (respectively `total_exited_validators`); when they
are equal the operator is omitted. -/
theorem delta_suppression_iff
    (catalist_validators_by_no : List (NodeOperatorGlobalIndex × List CatalistValidator))
    (ejected_index : List (NodeOperatorGlobalIndex × Int))
    (recent : List String) (dt : Nat) (cfg : ChainConfig) (bs : ReferenceBlockStamp)
    (ref_epoch : Nat) (node_operators : List NodeOperator)
    (counts out outE : List (NodeOperatorGlobalIndex × Nat))
    (hkeys : (catalist_validators_by_no.map Prod.fst).Nodup)
    (hops : (node_operators.map NodeOperator.global_index).Nodup)
    (hcounts : stuck_validators_counts catalist_validators_by_no ejected_index recent dt cfg bs
      = some counts)
    (hstuck : get_catalist_newly_stuck_validators catalist_validators_by_no ejected_index recent
      dt cfg bs node_operators = some out)
    (hexited : get_catalist_newly_exited_validators catalist_validators_by_no ref_epoch
      node_operators = some outE) :
    ∀ op ∈ node_operators,
      ((dlookup op.global_index out).isSome ↔
        dlookup op.global_index counts ≠ some op.stuck_validators_count)
      ∧ ((dlookup op.global_index outE).isSome ↔
        dlookup op.global_index (get_exited_catalist_validators catalist_validators_by_no ref_epoch)
          ≠ some op.total_exited_validators) := by
  intro op hmem
  have hckeys : (counts.map Prod.fst).Nodup := by
    rw [stuck_validators_counts_keys catalist_validators_by_no ejected_index recent dt cfg bs
      counts hcounts]
    exact hkeys
  have hsupp : suppress_unchanged (fun o => o.stuck_validators_count) node_operators counts
      = some out := by
    rw [get_catalist_newly_stuck_validators, hcounts] at hstuck
    simpa using hstuck
  have hekeys : ((get_exited_catalist_validators catalist_validators_by_no ref_epoch).map
      Prod.fst).Nodup := by
    have : (get_exited_catalist_validators catalist_validators_by_no ref_epoch).map Prod.fst
        = catalist_validators_by_no.map Prod.fst := by
      simp [get_exited_catalist_validators]
    rw [this]
    exact hkeys
  have hesupp : suppress_unchanged (fun o => o.total_exited_validators) node_operators
      (get_exited_catalist_validators catalist_validators_by_no ref_epoch) = some outE := by
    rw [get_catalist_newly_exited_validators] at hexited
    exact hexited
  constructor
  · rcases (suppress_unchanged_lookup (fun o => o.stuck_validators_count) node_operators counts
      out hckeys hops hsupp).1 op hmem with ⟨c, hc1, hc2⟩
    rw [hc1, hc2]
    by_cases hc : c = op.stuck_validators_count
    · simp [hc]
    · simp only [if_neg hc, Option.isSome_some, ne_eq, Option.some.injEq, true_iff]
      exact hc
  · rcases (suppress_unchanged_lookup (fun o => o.total_exited_validators) node_operators
      (get_exited_catalist_validators catalist_validators_by_no ref_epoch)
      outE hekeys hops hesupp).1 op hmem with ⟨c, hc1, hc2⟩
    rw [hc1, hc2]
    by_cases hc : c = op.total_exited_validators
    · simp [hc]
    · simp only [if_neg hc, Option.isSome_some, ne_eq, Option.some.injEq, true_iff]
      exact hc

/-- C2 witness: with two operators, the one whose fresh stuck count equals its
recorded count is suppressed, the other (fresh 0, recorded 1 stuck, recorded 9
exited) appears in both outputs. -/
theorem delta_suppression_iff_witness :
    ((dlookup (sampleOperator 3 1 9).global_index [((1, 3), 0)]).isSome ↔
      dlookup (sampleOperator 3 1 9).global_index [((1, 2), 1), ((1, 3), 0)]
        ≠ some (sampleOperator 3 1 9).stuck_validators_count)
    ∧ ((dlookup (sampleOperator 3 1 9).global_index [((1, 3), 0)]).isSome ↔
      dlookup (sampleOperator 3 1 9).global_index
        (get_exited_catalist_validators
          [((1, 2), [sampleValidator 0 0 FAR_FUTURE_EPOCH "k"]), ((1, 3), [])] 3125)
        ≠ some (sampleOperator 3 1 9).total_exited_validators) :=
  delta_suppression_iff
    [((1, 2), [sampleValidator 0 0 FAR_FUTURE_EPOCH "k"]), ((1, 3), [])]
    [((1, 2), 5)] [] 100 sampleChainConfig sampleBlockStamp 3125
    [sampleOperator 2 1 0, sampleOperator 3 1 9]
    [((1, 2), 1), ((1, 3), 0)] [((1, 3), 0)] [((1, 3), 0)]
    (by decide) (by decide) (by decide) (by decide) (by decide)
    (sampleOperator 3 1 9) (by decide)

theorem mapM_eq_none_of_mem {σ τ : Type} (f : σ → Option τ) (l : List σ) (a : σ)
    (ha : a ∈ l) (hf : f a = none) : l.mapM f = none := by
  induction l with
  | nil => simp at ha
  | cons x xs ih =>
    rw [List.mapM_cons]
    rcases List.mem_cons.mp ha with h | h
    · subst h
      rw [hf]
      rfl
    · cases hfx : f x with
      | none => rfl
      | some b =>
        simp only [Option.bind_eq_bind, Option.some_bind]
        rw [ih h]
        rfl

/-- C7 counterexample: operator `(1,1)` is present in the
validators-by-node-operator mapping with an empty validator list and has no
entry in the last-requested-exit-index mapping, yet
`get_catalist_newly_stuck_validators` succeeds (the per-validator closure that
reads the missing entry is never evaluated), returning the operator with
count 0 instead of failing. -/
theorem stuck_missing_index_no_error_on_empty_list :
    ((1, 1) : NodeOperatorGlobalIndex) ∈
      ([(((1, 1) : NodeOperatorGlobalIndex), ([] : List CatalistValidator))].map Prod.fst)
    ∧ dlookup ((1, 1) : NodeOperatorGlobalIndex) ([] : List (NodeOperatorGlobalIndex × Int)) = none
    ∧ get_catalist_newly_stuck_validators [((1, 1), [])] [] [] 100 sampleChainConfig
        sampleBlockStamp [sampleOperator 1 1 0] = some [((1, 1), 0)] := by
  refine ⟨by decide, by decide, by decide⟩

/-- C7 (amended): if an operator global index present in the
validators-by-node-operator mapping has no entry in the
last-requested-exit-index mapping AND that operator's validator list is
non-empty, then `get_catalist_newly_stuck_validators` fails with an error
rather than skipping the operator or returning a partial result (with an
empty list the missing entry is never read and the operator is processed with
count 0). -/
theorem stuck_missing_index_fails_on_nonempty_list
    (catalist_validators_by_no : List (NodeOperatorGlobalIndex × List CatalistValidator))
    (ejected_index : List (NodeOperatorGlobalIndex × Int))
    (recent : List String) (dt : Nat) (cfg : ChainConfig) (bs : ReferenceBlockStamp)
    (node_operators : List NodeOperator)
    (gi : NodeOperatorGlobalIndex) (v : CatalistValidator) (vs : List CatalistValidator)
    (hmem : (gi, v :: vs) ∈ catalist_validators_by_no)
    (hnone : dlookup gi ejected_index = none) :
    get_catalist_newly_stuck_validators catalist_validators_by_no ejected_index recent dt cfg bs
      node_operators = none := by
  have hop : operator_stuck_count ejected_index recent dt cfg bs gi (v :: vs) = none := by
    rw [operator_stuck_count, List.foldlM_cons, sum_stuck_validators, hnone]
    rfl
  have hcounts : stuck_validators_counts catalist_validators_by_no ejected_index recent dt cfg bs
      = none := by
    rw [stuck_validators_counts]
    refine mapM_eq_none_of_mem _ _ (gi, v :: vs) hmem ?_
    rw [hop]
    rfl
  rw [get_catalist_newly_stuck_validators, hcounts]
  rfl

/-- C7 (amended) witness: a non-empty operator list with a missing
last-requested-exit entry makes the whole computation fail. -/
theorem stuck_missing_index_fails_on_nonempty_list_witness :
    get_catalist_newly_stuck_validators
      [((1, 1), [sampleValidator 0 0 FAR_FUTURE_EPOCH "k"])] [] [] 100 sampleChainConfig
      sampleBlockStamp [sampleOperator 1 1 0] = none :=
  stuck_missing_index_fails_on_nonempty_list
    [((1, 1), [sampleValidator 0 0 FAR_FUTURE_EPOCH "k"])] [] [] 100 sampleChainConfig
    sampleBlockStamp [sampleOperator 1 1 0] (1, 1)
    (sampleValidator 0 0 FAR_FUTURE_EPOCH "k") [] (by decide) (by decide)

theorem filterOpt_eq_filter {σ : Type} (p : σ → Option Bool) (q : σ → Bool) (l : List σ)
    (h : ∀ x ∈ l, p x = some (q x)) : filterOpt p l = some (l.filter q) := by
  induction l with
  | nil => rfl
  | cons x xs ih =>
    rw [filterOpt, h x (List.mem_cons_self x xs),
      ih (fun y hy => h y (List.mem_cons_of_mem x hy))]
    simp only [Option.bind_eq_bind, Option.some_bind, List.filter_cons]
    cases hq : q x
    · simp [hq]
    · simp [hq]

theorem rrne_eval
    (ejected_indexes : List (NodeOperatorGlobalIndex × Int))
    (recent_indexes : List (NodeOperatorGlobalIndex × List Nat))
    (dt : Nat) (cfg : ChainConfig) (bs : ReferenceBlockStamp)
    (gi : NodeOperatorGlobalIndex) (e : Int) (r : List Nat) (v : CatalistValidator)
    (he : dlookup gi ejected_indexes = some e)
    (hr : dlookup gi recent_indexes = some r) :
    is_validator_recently_requested_but_not_exited ejected_indexes recent_indexes dt cfg bs gi v
      = some (validator_requested_to_exit e v && ! is_on_exit v.toValidator &&
          (validator_recently_requested_to_exit r v ||
            ! validator_eligible_to_exit dt cfg bs v)) := by
  cases hreq : validator_requested_to_exit e v with
  | false => simp [is_validator_recently_requested_but_not_exited, he, hreq]
  | true =>
    cases hexit : is_on_exit v.toValidator with
    | true => simp [is_validator_recently_requested_but_not_exited, he, hreq, hexit]
    | false =>
      cases hrec : validator_recently_requested_to_exit r v with
      | true =>
        simp [is_validator_recently_requested_but_not_exited, he, hr, hreq, hexit, hrec]
      | false =>
        cases helig : validator_eligible_to_exit dt cfg bs v with
        | true =>
          simp [is_validator_recently_requested_but_not_exited, he, hr, hreq, hexit, hrec, helig]
        | false =>
          simp [is_validator_recently_requested_but_not_exited, he, hr, hreq, hexit, hrec, helig]

theorem delayed_eval
    (ejected_indexes : List (NodeOperatorGlobalIndex × Int))
    (recent_indexes : List (NodeOperatorGlobalIndex × List Nat))
    (gi : NodeOperatorGlobalIndex) (e : Int) (r : List Nat) (v : CatalistValidator)
    (he : dlookup gi ejected_indexes = some e)
    (hr : dlookup gi recent_indexes = some r) :
    is_validator_delayed ejected_indexes recent_indexes gi v
      = some (validator_requested_to_exit e v && ! is_on_exit v.toValidator &&
          ! validator_recently_requested_to_exit r v) := by
  cases hreq : validator_requested_to_exit e v with
  | false => simp [is_validator_delayed, he, hreq]
  | true =>
    cases hexit : is_on_exit v.toValidator with
    | true => simp [is_validator_delayed, he, hreq, hexit]
    | false => simp [is_validator_delayed, he, hr, hreq, hexit]

theorem rrne_characterization
    (catalist_validators_by_operator : List (NodeOperatorGlobalIndex × List CatalistValidator))
    (ejected_indexes : List (NodeOperatorGlobalIndex × Int))
    (recent_indexes : List (NodeOperatorGlobalIndex × List Nat))
    (dt : Nat) (cfg : ChainConfig) (bs : ReferenceBlockStamp)
    (hlook : ∀ q ∈ catalist_validators_by_operator,
      ∃ e r, dlookup q.1 ejected_indexes = some e ∧ dlookup q.1 recent_indexes = some r) :
    get_recently_requested_but_not_exited_validators catalist_validators_by_operator
      ejected_indexes recent_indexes dt cfg bs
      = some
        (catalist_validators_by_operator.flatMap (fun q => q.2.filter (fun v =>
          validator_requested_to_exit ((dlookup q.1 ejected_indexes).getD 0) v &&
          ! is_on_exit v.toValidator &&
          (validator_recently_requested_to_exit ((dlookup q.1 recent_indexes).getD []) v ||
            ! validator_eligible_to_exit dt cfg bs v))),
        catalist_validators_by_operator.map (fun q => (q.1, (q.2.filter (fun v =>
          validator_requested_to_exit ((dlookup q.1 ejected_indexes).getD 0) v &&
          ! is_on_exit v.toValidator &&
          ! validator_recently_requested_to_exit ((dlookup q.1 recent_indexes).getD []) v)).length))) := by
  rw [get_recently_requested_but_not_exited_validators]
  suffices h : ∀ (l : List (NodeOperatorGlobalIndex × List CatalistValidator))
      (acc : List CatalistValidator × List (NodeOperatorGlobalIndex × Nat)),
      (∀ q ∈ l, ∃ e r, dlookup q.1 ejected_indexes = some e
        ∧ dlookup q.1 recent_indexes = some r) →
      l.foldlM
        (fun acc p => do
          let filtered ← filterOpt
            (is_validator_recently_requested_but_not_exited ejected_indexes recent_indexes
              dt cfg bs p.1) p.2
          let delayed ← filterOpt (is_validator_delayed ejected_indexes recent_indexes p.1) p.2
          some (acc.1 ++ filtered, acc.2 ++ [(p.1, delayed.length)]))
        acc
      = some
        (acc.1 ++ l.flatMap (fun q => q.2.filter (fun v =>
          validator_requested_to_exit ((dlookup q.1 ejected_indexes).getD 0) v &&
          ! is_on_exit v.toValidator &&
          (validator_recently_requested_to_exit ((dlookup q.1 recent_indexes).getD []) v ||
            ! validator_eligible_to_exit dt cfg bs v))),
        acc.2 ++ l.map (fun q => (q.1, (q.2.filter (fun v =>
          validator_requested_to_exit ((dlookup q.1 ejected_indexes).getD 0) v &&
          ! is_on_exit v.toValidator &&
          ! validator_recently_requested_to_exit ((dlookup q.1 recent_indexes).getD []) v)).length))) by
    have h0 := h catalist_validators_by_operator ([], []) hlook
    simpa using h0
  intro l
  induction l with
  | nil =>
    intro acc _
    simp
  | cons q rest ih =>
    intro acc hlk
    rcases hlk q (List.mem_cons_self q rest) with ⟨e, r, he, hr⟩
    rw [List.foldlM_cons]
    rw [filterOpt_eq_filter _ _ _ (fun v _ => rrne_eval ejected_indexes recent_indexes
      dt cfg bs q.1 e r v he hr)]
    rw [filterOpt_eq_filter _ _ _ (fun v _ => delayed_eval ejected_indexes recent_indexes
      q.1 e r v he hr)]
    simp only [Option.bind_eq_bind, Option.some_bind]
    simp only [Option.bind_eq_bind] at ih
    rw [ih _ (fun q' hq' => hlk q' (List.mem_cons_of_mem q hq'))]
    simp only [List.flatMap_cons, List.map_cons, he, hr, Option.getD_some]
    simp [List.append_assoc]

/-- C3: `get_recently_requested_but_not_exited_validators` returns exactly the
validators, concatenated over operators in mapping order and preserving each
operator's list order, that were requested to exit (index at most the
operator's last-requested-exit index), are not on exit (exit epoch equal to
the far-future sentinel), and either have their index in the operator's
recently-requested-to-exit index set or are not yet eligible to exit at
`ref_epoch - delayed_timeout_in_slots / slots_per_epoch`. -/
theorem rrne_returns_exactly
    (catalist_validators_by_operator : List (NodeOperatorGlobalIndex × List CatalistValidator))
    (ejected_indexes : List (NodeOperatorGlobalIndex × Int))
    (recent_indexes : List (NodeOperatorGlobalIndex × List Nat))
    (dt : Nat) (cfg : ChainConfig) (bs : ReferenceBlockStamp)
    (hlook : ∀ q ∈ catalist_validators_by_operator,
      ∃ e r, dlookup q.1 ejected_indexes = some e ∧ dlookup q.1 recent_indexes = some r) :
    ∃ gauges,
      get_recently_requested_but_not_exited_validators catalist_validators_by_operator
        ejected_indexes recent_indexes dt cfg bs
      = some
        (catalist_validators_by_operator.flatMap (fun q => q.2.filter (fun v =>
          validator_requested_to_exit ((dlookup q.1 ejected_indexes).getD 0) v &&
          ! is_on_exit v.toValidator &&
          (validator_recently_requested_to_exit ((dlookup q.1 recent_indexes).getD []) v ||
            ! validator_eligible_to_exit dt cfg bs v))),
        gauges) :=
  ⟨_, rrne_characterization catalist_validators_by_operator ejected_indexes recent_indexes
    dt cfg bs hlook⟩

/-- C3 witness: a requested, not-on-exit validator that is not yet eligible to
exit is returned for its operator. -/
theorem rrne_returns_exactly_witness :
    ∃ gauges,
      get_recently_requested_but_not_exited_validators
        [((1, 0), [sampleValidator 0 3124 FAR_FUTURE_EPOCH "x"])]
        [((1, 0), 5)] [((1, 0), [])] 100 sampleChainConfig sampleBlockStamp
      = some
        ([((1, 0), [sampleValidator 0 3124 FAR_FUTURE_EPOCH "x"])].flatMap
          (fun q => q.2.filter (fun v =>
            validator_requested_to_exit ((dlookup q.1 [((1, 0), 5)]).getD 0) v &&
            ! is_on_exit v.toValidator &&
            (validator_recently_requested_to_exit ((dlookup q.1 [((1, 0), [])]).getD []) v ||
              ! validator_eligible_to_exit 100 sampleChainConfig sampleBlockStamp v))),
        gauges) :=
  rrne_returns_exactly [((1, 0), [sampleValidator 0 3124 FAR_FUTURE_EPOCH "x"])]
    [((1, 0), 5)] [((1, 0), [])] 100 sampleChainConfig sampleBlockStamp
    (by
      intro q hq
      rw [List.mem_singleton] at hq
      subst hq
      exact ⟨5, [], by decide, by decide⟩)

/-- C4 counterexample: a validator requested to exit (index 0 ≤ 5), not on
exit, not recently requested and NOT yet eligible to exit is counted toward
the delayed gauge (count 1, where the claim predicts 0) and is
simultaneously returned as recently-requested-but-not-exited — the two
classes overlap. -/
theorem delayed_gauge_counts_ineligible :
    get_recently_requested_but_not_exited_validators
      [((1, 0), [sampleValidator 0 3124 FAR_FUTURE_EPOCH "x"])]
      [((1, 0), 5)] [((1, 0), [])] 100 sampleChainConfig sampleBlockStamp
      = some ([sampleValidator 0 3124 FAR_FUTURE_EPOCH "x"], [((1, 0), 1)])
    ∧ List.countP (fun v => validator_requested_to_exit 5 v
        && ! is_on_exit v.toValidator
        && ! validator_recently_requested_to_exit [] v
        && validator_eligible_to_exit 100 sampleChainConfig sampleBlockStamp v)
        [sampleValidator 0 3124 FAR_FUTURE_EPOCH "x"] = 0 := by
  refine ⟨by decide, by decide⟩

/-- C4 (amended): the per-operator delayed gauge written inside
`get_recently_requested_but_not_exited_validators` counts the operator's
validators that were requested to exit, are not on exit, and are not in the
operator's recently-requested-to-exit index set — eligibility to exit is NOT
consulted; and every requested, not-on-exit validator falls into at least one
of the two classes: it is counted as delayed iff not recently requested, and
it is returned iff recently requested or not yet eligible (a validator that
is neither recently requested nor eligible is in both classes). -/
theorem delayed_gauge_characterization
    (catalist_validators_by_operator : List (NodeOperatorGlobalIndex × List CatalistValidator))
    (ejected_indexes : List (NodeOperatorGlobalIndex × Int))
    (recent_indexes : List (NodeOperatorGlobalIndex × List Nat))
    (dt : Nat) (cfg : ChainConfig) (bs : ReferenceBlockStamp)
    (hlook : ∀ q ∈ catalist_validators_by_operator,
      ∃ e r, dlookup q.1 ejected_indexes = some e ∧ dlookup q.1 recent_indexes = some r) :
    ∃ returned,
      get_recently_requested_but_not_exited_validators catalist_validators_by_operator
        ejected_indexes recent_indexes dt cfg bs
      = some (returned,
        catalist_validators_by_operator.map (fun q => (q.1, (q.2.filter (fun v =>
          validator_requested_to_exit ((dlookup q.1 ejected_indexes).getD 0) v &&
          ! is_on_exit v.toValidator &&
          ! validator_recently_requested_to_exit ((dlookup q.1 recent_indexes).getD []) v)).length)))
      ∧ ∀ q ∈ catalist_validators_by_operator, ∀ v ∈ q.2,
          (validator_requested_to_exit ((dlookup q.1 ejected_indexes).getD 0) v &&
            ! is_on_exit v.toValidator) = true →
          (v ∈ returned ∨
            (validator_requested_to_exit ((dlookup q.1 ejected_indexes).getD 0) v &&
              ! is_on_exit v.toValidator &&
              ! validator_recently_requested_to_exit ((dlookup q.1 recent_indexes).getD []) v)
              = true) := by
  refine ⟨_, rrne_characterization catalist_validators_by_operator ejected_indexes
    recent_indexes dt cfg bs hlook, ?_⟩
  intro q hq v hv hcond
  rw [Bool.and_eq_true] at hcond
  by_cases hrec : validator_recently_requested_to_exit
      ((dlookup q.1 recent_indexes).getD []) v = true
  · left
    refine List.mem_flatMap.mpr ⟨q, hq, List.mem_filter.mpr ⟨hv, ?_⟩⟩
    simp [hcond.1, hcond.2, hrec]
  · right
    have hf : validator_recently_requested_to_exit
        ((dlookup q.1 recent_indexes).getD []) v = false := Bool.eq_false_iff.mpr hrec
    simp [hcond.1, hcond.2, hf]

/-- C4 (amended) witness: at the concrete input of the counterexample the
gauge map is exactly the filter-length map and the requested, not-on-exit
validator is in the returned list (and also satisfies the delayed
predicate). -/
theorem delayed_gauge_characterization_witness :
    ∃ returned,
      get_recently_requested_but_not_exited_validators
        [((1, 0), [sampleValidator 0 3124 FAR_FUTURE_EPOCH "x"])]
        [((1, 0), 5)] [((1, 0), [])] 100 sampleChainConfig sampleBlockStamp
      = some (returned,
        [((1, 0), [sampleValidator 0 3124 FAR_FUTURE_EPOCH "x"])].map (fun q => (q.1,
          (q.2.filter (fun v =>
            validator_requested_to_exit ((dlookup q.1 [((1, 0), 5)]).getD 0) v &&
            ! is_on_exit v.toValidator &&
            ! validator_recently_requested_to_exit
                ((dlookup q.1 [((1, 0), ([] : List Nat))]).getD []) v)).length)))
      ∧ ∀ q ∈ [((1, 0), [sampleValidator 0 3124 FAR_FUTURE_EPOCH "x"])], ∀ v ∈ q.2,
          (validator_requested_to_exit ((dlookup q.1 [((1, 0), 5)]).getD 0) v &&
            ! is_on_exit v.toValidator) = true →
          (v ∈ returned ∨
            (validator_requested_to_exit ((dlookup q.1 [((1, 0), 5)]).getD 0) v &&
              ! is_on_exit v.toValidator &&
              ! validator_recently_requested_to_exit
                  ((dlookup q.1 [((1, 0), ([] : List Nat))]).getD []) v) = true) :=
  delayed_gauge_characterization
    [((1, 0), [sampleValidator 0 3124 FAR_FUTURE_EPOCH "x"])]
    [((1, 0), 5)] [((1, 0), [])] 100 sampleChainConfig sampleBlockStamp
    (by
      intro q hq
      rw [List.mem_singleton] at hq
      subst hq
      exact ⟨5, [], by decide, by decide⟩)

theorem mem_dinsert [DecidableEq α] (k : α) (v : β) (m : List (α × β)) (p : α × β)
    (h : p ∈ dinsert k v m) : p = (k, v) ∨ p ∈ m := by
  induction m with
  | nil => simpa [dinsert] using h
  | cons q rest ih =>
    by_cases hq : q.1 = k
    · simp only [dinsert, if_pos hq, List.mem_cons] at h
      rcases h with h | h
      · exact Or.inl h
      · exact Or.inr (List.mem_cons_of_mem q h)
    · simp only [dinsert, if_neg hq, List.mem_cons] at h
      rcases h with h | h
      · exact Or.inr (h ▸ List.mem_cons_self q rest)
      · rcases ih h with h' | h'
        · exact Or.inl h'
        · exact Or.inr (List.mem_cons_of_mem q h')

theorem mem_of_dlookup [DecidableEq α] (k : α) (v : β) (m : List (α × β))
    (h : dlookup k m = some v) : (k, v) ∈ m := by
  induction m with
  | nil => simp [dlookup] at h
  | cons p rest ih =>
    by_cases hp : p.1 = k
    · simp only [dlookup_cons, if_pos hp, Option.some.injEq] at h
      subst h
      subst hp
      exact List.mem_cons_self p rest
    · simp only [dlookup_cons, if_neg hp] at h
      exact List.mem_cons_of_mem p (ih h)

theorem mem_keys_dinsert [DecidableEq α] (k k'' : α) (v : β) (m : List (α × β)) :
    k'' ∈ (dinsert k v m).map Prod.fst ↔ k'' ∈ m.map Prod.fst ∨ k'' = k := by
  rw [keys_dinsert]
  by_cases hk : k ∈ m.map Prod.fst
  · rw [if_pos hk]
    constructor
    · exact Or.inl
    · rintro (h | h)
      · exact h
      · exact h ▸ hk
  · rw [if_neg hk]
    simp

theorem validators_keys_dict_entry (validators : List Validator) (k : String) (v : Validator)
    (h : dlookup k (validators_keys_dict validators) = some v) :
    v ∈ validators ∧ v.validator.pubkey = k := by
  have hgen : ∀ (l : List Validator) (m : List (String × Validator)),
      (∀ p ∈ m, p.2 ∈ validators ∧ p.2.validator.pubkey = p.1) →
      (∀ x ∈ l, x ∈ validators) →
      ∀ p ∈ l.foldl (fun d v => dinsert v.validator.pubkey v d) m,
        p.2 ∈ validators ∧ p.2.validator.pubkey = p.1 := by
    intro l
    induction l with
    | nil => intro m hm _ p hp; exact hm p hp
    | cons x xs ih =>
      intro m hm hl p hp
      rw [List.foldl_cons] at hp
      refine ih (dinsert x.validator.pubkey x m) ?_ (fun y hy => hl y (List.mem_cons_of_mem x hy))
        p hp
      intro q hq
      rcases mem_dinsert _ _ _ q hq with h' | h'
      · subst h'
        exact ⟨hl x (List.mem_cons_self x xs), rfl⟩
      · exact hm q h'
  have := hgen validators [] (by simp) (fun x hx => hx) (k, v)
    (mem_of_dlookup k v _ h)
  exact ⟨this.1, this.2⟩

theorem validators_keys_dict_mem_keys (validators : List Validator) (k : String) :
    k ∈ (validators_keys_dict validators).map Prod.fst ↔
      ∃ v ∈ validators, v.validator.pubkey = k := by
  have hgen : ∀ (l : List Validator) (m : List (String × Validator)),
      k ∈ (l.foldl (fun d v => dinsert v.validator.pubkey v d) m).map Prod.fst ↔
        k ∈ m.map Prod.fst ∨ ∃ v ∈ l, v.validator.pubkey = k := by
    intro l
    induction l with
    | nil => intro m; simp
    | cons x xs ih =>
      intro m
      rw [List.foldl_cons, ih, mem_keys_dinsert]
      constructor
      · rintro ((h | h) | h)
        · exact Or.inl h
        · exact Or.inr ⟨x, List.mem_cons_self x xs, h.symm⟩
        · rcases h with ⟨v, hv, hpk⟩
          exact Or.inr ⟨v, List.mem_cons_of_mem x hv, hpk⟩
      · rintro (h | ⟨v, hv, hpk⟩)
        · exact Or.inl (Or.inl h)
        · rcases List.mem_cons.mp hv with h' | h'
          · exact Or.inl (Or.inr (h' ▸ hpk.symm))
          · exact Or.inr ⟨v, h', hpk⟩
  rw [validators_keys_dict, hgen validators []]
  simp

theorem merge_validators_with_keys_eq_filterMap (keys : List LidoKey)
    (validators : List Validator) :
    merge_validators_with_keys keys validators =
      keys.filterMap (fun k => (dlookup k.key (validators_keys_dict validators)).map
        (fun v => ({ toValidator := v, lido_id := k } : LidoValidator))) := by
  rw [merge_validators_with_keys]
  suffices h : ∀ (l : List LidoKey) (acc : List LidoValidator),
      l.foldl (fun acc key =>
        match dlookup key.key (validators_keys_dict validators) with
        | some v => acc ++ [{ toValidator := v, lido_id := key }]
        | none => acc) acc
      = acc ++ l.filterMap (fun k => (dlookup k.key (validators_keys_dict validators)).map
          (fun v => ({ toValidator := v, lido_id := k } : LidoValidator))) by
    simpa using h keys []
  intro l
  induction l with
  | nil => intro acc; simp
  | cons k ks ih =>
    intro acc
    rw [List.foldl_cons, List.filterMap_cons]
    cases hk : dlookup k.key (validators_keys_dict validators) with
    | none => simp [hk, ih]
    | some v => simp [hk, ih]

theorem old_merge_validators_eq_filterMap (keys : List LidoKey)
    (validators : List Validator) :
    _merge_validators keys validators =
      keys.filterMap (fun k => (dlookup k.key (validators_keys_dict validators)).map
        (fun v => (⟨k, v⟩ : OldLidoValidator))) := by
  rw [_merge_validators]
  suffices h : ∀ (l : List LidoKey) (acc : List OldLidoValidator),
      l.foldl (fun acc key =>
        match dlookup key.key (validators_keys_dict validators) with
        | some v => acc ++ [⟨key, v⟩]
        | none => acc) acc
      = acc ++ l.filterMap (fun k => (dlookup k.key (validators_keys_dict validators)).map
          (fun v => (⟨k, v⟩ : OldLidoValidator))) by
    simpa using h keys []
  intro l
  induction l with
  | nil => intro acc; simp
  | cons k ks ih =>
    intro acc
    rw [List.foldl_cons, List.filterMap_cons]
    cases hk : dlookup k.key (validators_keys_dict validators) with
    | none => simp [hk, ih]
    | some v => simp [hk, ih]

/-- C10: the old-module `_merge_validators` and the new-module
`merge_validators_with_keys` select the same validators in the same order
(their (key, validator) projections coincide); the new function emits one
entry per managed key, in key-list order, exactly for the keys whose pubkey
occurs among the validators' pubkeys; and every output entry pairs a key with
a validator from the input list bearing that pubkey. -/
theorem merge_validators_equivalence (keys : List LidoKey) (validators : List Validator) :
    ((_merge_validators keys validators).map (fun o => (o.key, o.validator))
      = (merge_validators_with_keys keys validators).map (fun n => (n.lido_id, n.toValidator)))
    ∧ ((merge_validators_with_keys keys validators).map (fun n => n.lido_id)
      = keys.filter (fun k => validators.any (fun v => v.validator.pubkey == k.key)))
    ∧ (∀ lv ∈ merge_validators_with_keys keys validators,
        lv.lido_id.key = lv.validator.pubkey ∧ lv.toValidator ∈ validators) := by
  refine ⟨?_, ?_, ?_⟩
  · rw [merge_validators_with_keys_eq_filterMap, old_merge_validators_eq_filterMap,
      List.map_filterMap, List.map_filterMap]
    congr 1
    funext k
    cases hk : dlookup k.key (validators_keys_dict validators) with
    | none => simp
    | some v => simp
  · rw [merge_validators_with_keys_eq_filterMap, List.map_filterMap]
    have h : ∀ (l : List LidoKey),
        l.filterMap (fun k => ((dlookup k.key (validators_keys_dict validators)).map
          (fun v => ({ toValidator := v, lido_id := k } : LidoValidator))).map
            (fun n => n.lido_id))
        = l.filter (fun k => validators.any (fun v => v.validator.pubkey == k.key)) := by
      intro l
      induction l with
      | nil => rfl
      | cons k ks ih =>
        rw [List.filterMap_cons, List.filter_cons]
        have hiff : (dlookup k.key (validators_keys_dict validators)).isSome
            ↔ validators.any (fun v => v.validator.pubkey == k.key) = true := by
          rw [List.any_eq_true]
          constructor
          · intro hs
            rcases validators_keys_dict_mem_keys validators k.key |>.mp
              (mem_keys_of_dlookup_isSome _ _ hs) with ⟨v, hv, hpk⟩
            exact ⟨v, hv, by simp [hpk]⟩
          · rintro ⟨v, hv, hpk⟩
            refine dlookup_isSome_of_mem_keys _ _ ?_
            exact (validators_keys_dict_mem_keys validators k.key).mpr
              ⟨v, hv, by simpa using hpk⟩
        cases hk : dlookup k.key (validators_keys_dict validators) with
        | none =>
          have : validators.any (fun v => v.validator.pubkey == k.key) = false := by
            rw [← Bool.not_eq_true, ← hiff, hk]
            simp
          simpa [hk, this, Option.map_map] using ih
        | some v =>
          have : validators.any (fun v => v.validator.pubkey == k.key) = true := by
            rw [← hiff, hk]
            simp
          simpa [hk, this, Option.map_map] using ih
    exact h keys
  · intro lv hlv
    rw [merge_validators_with_keys_eq_filterMap] at hlv
    rcases List.mem_filterMap.mp hlv with ⟨k, _, hk⟩
    cases hl : dlookup k.key (validators_keys_dict validators) with
    | none =>
      rw [hl] at hk
      simp at hk
    | some v =>
      rw [hl] at hk
      simp only [Option.map_some', Option.some.injEq] at hk
      rcases validators_keys_dict_entry validators k.key v hl with ⟨hv, hpk⟩
      subst hk
      exact ⟨hpk.symm, hv⟩

theorem map_id_of_keys_ne [DecidableEq α] (k : α) (f : β → β) (m : List (α × β))
    (h : ∀ p ∈ m, p.1 ≠ k) :
    m.map (fun p => if p.1 = k then (p.1, f p.2) else p) = m := by
  induction m with
  | nil => rfl
  | cons p rest ih =>
    rw [List.map_cons, if_neg (h p (List.mem_cons_self p rest)),
      ih (fun q hq => h q (List.mem_cons_of_mem p hq))]

theorem dupdate_eq_map [DecidableEq α] (k : α) (f : β → β) (m : List (α × β))
    (hnd : (m.map Prod.fst).Nodup) :
    dupdate k f m = m.map (fun p => if p.1 = k then (p.1, f p.2) else p) := by
  induction m with
  | nil => rfl
  | cons p rest ih =>
    simp only [List.map_cons, List.nodup_cons] at hnd
    by_cases hp : p.1 = k
    · rw [dupdate, if_pos hp, List.map_cons, if_pos hp]
      rw [map_id_of_keys_ne k f rest]
      intro q hq hqk
      exact hnd.1 (List.mem_map.mpr ⟨q, hq, by rw [hqk, hp]⟩)
    · rw [dupdate, if_neg hp, List.map_cons, if_neg hp, ih hnd.2]

theorem mem_keys_dinsert_fold {X : Type} [DecidableEq α] (f : X → α) (g : X → β) :
    ∀ (l : List X) (m : List (α × β)) (k : α),
      (k ∈ (l.foldl (fun acc x => dinsert (f x) (g x) acc) m).map Prod.fst) ↔
        (k ∈ m.map Prod.fst ∨ ∃ x ∈ l, f x = k) := by
  intro l
  induction l with
  | nil => intro m k; simp
  | cons x xs ih =>
    intro m k
    rw [List.foldl_cons, ih, mem_keys_dinsert]
    constructor
    · rintro ((h | h) | h)
      · exact Or.inl h
      · exact Or.inr ⟨x, List.mem_cons_self x xs, h.symm⟩
      · rcases h with ⟨y, hy, hk⟩
        exact Or.inr ⟨y, List.mem_cons_of_mem x hy, hk⟩
    · rintro (h | ⟨y, hy, hk⟩)
      · exact Or.inl (Or.inl h)
      · rcases List.mem_cons.mp hy with h' | h'
        · exact Or.inl (Or.inr (h' ▸ hk.symm))
        · exact Or.inr ⟨y, h', hk⟩

theorem keys_nodup_dinsert_fold {X : Type} [DecidableEq α] (f : X → α) (g : X → β) :
    ∀ (l : List X) (m : List (α × β)), (m.map Prod.fst).Nodup →
      ((l.foldl (fun acc x => dinsert (f x) (g x) acc) m).map Prod.fst).Nodup := by
  intro l
  induction l with
  | nil => intro m hm; exact hm
  | cons x xs ih =>
    intro m hm
    rw [List.foldl_cons]
    refine ih (dinsert (f x) (g x) m) ?_
    rw [keys_dinsert]
    by_cases hk : f x ∈ m.map Prod.fst
    · rw [if_pos hk]; exact hm
    · rw [if_neg hk]
      simp [List.nodup_append, hm, hk]

theorem empty_operator_map_keys_nodup (no_operators : List NodeOperator) :
    ((empty_operator_map no_operators).map Prod.fst).Nodup :=
  keys_nodup_dinsert_fold NodeOperator.global_index (fun _ => []) no_operators [] (by simp)

theorem empty_operator_map_values (no_operators : List NodeOperator)
    (gi : NodeOperatorGlobalIndex) (l : List LidoValidator)
    (h : dlookup gi (empty_operator_map no_operators) = some l) : l = [] := by
  have hgen : ∀ (ops : List NodeOperator) (m : List (NodeOperatorGlobalIndex × List LidoValidator)),
      (∀ p ∈ m, p.2 = []) →
      ∀ p ∈ ops.foldl (fun acc op => dinsert op.global_index [] acc) m, p.2 = [] := by
    intro ops
    induction ops with
    | nil => intro m hm p hp; exact hm p hp
    | cons op rest ih =>
      intro m hm p hp
      rw [List.foldl_cons] at hp
      refine ih (dinsert op.global_index [] m) ?_ p hp
      intro q hq
      rcases mem_dinsert _ _ _ q hq with h' | h'
      · rw [h']
      · exact hm q h'
  exact hgen no_operators [] (by simp) (gi, l) (mem_of_dlookup gi l _ h)

theorem mem_keys_empty_operator_map (no_operators : List NodeOperator) (op : NodeOperator)
    (hop : op ∈ no_operators) :
    op.global_index ∈ (empty_operator_map no_operators).map Prod.fst := by
  rw [empty_operator_map,
    mem_keys_dinsert_fold NodeOperator.global_index (fun _ => []) no_operators []
      op.global_index]
  exact Or.inr ⟨op, hop, rfl⟩

theorem dlookup_map_by_key {β γ : Type} [DecidableEq α] (g : α → β → γ) (k : α)
    (m : List (α × β)) :
    dlookup k (m.map (fun p => (p.1, g p.1 p.2))) = (dlookup k m).map (g k) := by
  induction m with
  | nil => rfl
  | cons p rest ih =>
    by_cases hp : p.1 = k
    · subst hp
      simp [dlookup]
    · simp [dlookup, hp, ih]

theorem by_no_fold_characterization (no_operators : List NodeOperator) :
    ∀ (merged : List LidoValidator)
      (m : List (NodeOperatorGlobalIndex × List LidoValidator)),
      (m.map Prod.fst).Nodup →
      (∀ v ∈ merged,
        (dlookup v.lido_id.moduleAddress (staking_module_address_map no_operators)).isSome) →
      merged.foldlM
        (fun m v =>
          (dlookup v.lido_id.moduleAddress (staking_module_address_map no_operators)).bind
            fun module_id =>
              let global_no_id := (module_id, v.lido_id.operatorIndex)
              if (dlookup global_no_id m).isSome then
                some (dupdate global_no_id (fun l => l ++ [v]) m)
              else
                some m)
        m
      = some (m.map (fun p => (p.1, p.2 ++ merged.filter (fun v =>
          decide (derived_global_index no_operators v = some p.1))))) := by
  intro merged
  induction merged with
  | nil =>
    intro m _ _
    simp
  | cons v rest ih =>
    intro m hnd hres
    rcases Option.isSome_iff_exists.mp (hres v (List.mem_cons_self v rest)) with ⟨mid, hmid⟩
    have hder : derived_global_index no_operators v = some (mid, v.lido_id.operatorIndex) := by
      rw [derived_global_index, hmid]
      rfl
    rw [List.foldlM_cons, hmid]
    simp only [Option.some_bind]
    by_cases hmem : (dlookup (mid, v.lido_id.operatorIndex) m).isSome
    · rw [if_pos hmem]
      simp only [Option.bind_eq_bind, Option.some_bind]
      have hnd' : ((dupdate (mid, v.lido_id.operatorIndex) (fun l => l ++ [v]) m).map
          Prod.fst).Nodup := by
        rw [keys_dupdate]
        exact hnd
      rw [ih _ hnd' (fun w hw => hres w (List.mem_cons_of_mem v hw))]
      rw [dupdate_eq_map _ _ _ hnd, List.map_map]
      congr 1
      refine List.map_congr_left ?_
      intro p _
      by_cases hp : p.1 = (mid, v.lido_id.operatorIndex)
      · have hpred : decide (derived_global_index no_operators v = some p.1) = true := by
          rw [hder, hp]
          simp
        simp only [Function.comp, hp, List.filter_cons, hpred, if_true]
        simp only [List.append_assoc, List.singleton_append, Prod.mk.injEq, true_and]
        have hcond : decide (derived_global_index no_operators v
            = some (mid, v.lido_id.operatorIndex)) = true := by
          rw [hder]
          simp
        rw [if_pos hcond]
      · have hpred : decide (derived_global_index no_operators v = some p.1) = false := by
          rw [hder]
          simp only [decide_eq_false_iff_not, Option.some.injEq]
          exact fun hc => hp hc.symm
        simp [Function.comp, hp, List.filter_cons, hpred]
    · rw [if_neg hmem]
      simp only [Option.bind_eq_bind, Option.some_bind]
      rw [ih _ hnd (fun w hw => hres w (List.mem_cons_of_mem v hw))]
      congr 1
      refine List.map_congr_left ?_
      intro p hp
      have hpne : p.1 ≠ (mid, v.lido_id.operatorIndex) := by
        intro hc
        apply hmem
        rw [← hc]
        exact dlookup_isSome_of_mem_keys _ _ (List.mem_map.mpr ⟨p, hp, rfl⟩)
      have hpred : decide (derived_global_index no_operators v = some p.1) = false := by
        rw [hder]
        simp only [decide_eq_false_iff_not, Option.some.injEq]
        exact fun hc => hpne hc.symm
      simp [List.filter_cons, hpred]

theorem by_no_success_resolvable (no_operators : List NodeOperator) :
    ∀ (merged : List LidoValidator)
      (m : List (NodeOperatorGlobalIndex × List LidoValidator))
      (result : List (NodeOperatorGlobalIndex × List LidoValidator)),
      merged.foldlM
        (fun m v =>
          (dlookup v.lido_id.moduleAddress (staking_module_address_map no_operators)).bind
            fun module_id =>
              let global_no_id := (module_id, v.lido_id.operatorIndex)
              if (dlookup global_no_id m).isSome then
                some (dupdate global_no_id (fun l => l ++ [v]) m)
              else
                some m)
        m = some result →
      ∀ v ∈ merged,
        (dlookup v.lido_id.moduleAddress (staking_module_address_map no_operators)).isSome := by
  intro merged
  induction merged with
  | nil =>
    intro m result _ v hv
    simp at hv
  | cons v rest ih =>
    intro m result h w hw
    rw [List.foldlM_cons] at h
    cases hl : dlookup v.lido_id.moduleAddress (staking_module_address_map no_operators) with
    | none =>
      rw [hl] at h
      simp at h
    | some mid =>
      rcases List.mem_cons.mp hw with hw' | hw'
      · rw [hw', hl]
        rfl
      · rw [hl] at h
        simp only [Option.some_bind] at h
        by_cases hmem : (dlookup (mid, v.lido_id.operatorIndex) m).isSome
        · rw [if_pos hmem] at h
          simp only [Option.bind_eq_bind, Option.some_bind] at h
          exact ih _ result h w hw'
        · rw [if_neg hmem] at h
          simp only [Option.bind_eq_bind, Option.some_bind] at h
          exact ih _ result h w hw'

/-- C8: when every merged validator's module address resolves,
`get_lido_validators_by_node_operators` succeeds; its key set is exactly that
of the initial per-operator map, and each operator key is mapped to exactly
the merged validators (in merged order) whose derived (module id, operator
id) pair equals that key — so a validator whose derived pair is not a known
operator key is appended nowhere and changes no other operator's list. -/
theorem unknown_operator_validators_skipped
    (merged_validators : List LidoValidator) (no_operators : List NodeOperator)
    (hres : ∀ v ∈ merged_validators,
      (dlookup v.lido_id.moduleAddress (staking_module_address_map no_operators)).isSome) :
    ∃ result,
      get_lido_validators_by_node_operators merged_validators no_operators = some result
      ∧ result.map Prod.fst = (empty_operator_map no_operators).map Prod.fst
      ∧ ∀ gi, dlookup gi result
          = (dlookup gi (empty_operator_map no_operators)).map
              (fun _ => merged_validators.filter
                (fun v => decide (derived_global_index no_operators v = some gi))) := by
  have hch := by_no_fold_characterization no_operators merged_validators
    (empty_operator_map no_operators) (empty_operator_map_keys_nodup no_operators) hres
  refine ⟨_, hch, ?_, ?_⟩
  · simp
  · intro gi
    rw [dlookup_map_by_key
      (fun k l => l ++ merged_validators.filter
        (fun v => decide (derived_global_index no_operators v = some k))) gi
      (empty_operator_map no_operators)]
    cases hl : dlookup gi (empty_operator_map no_operators) with
    | none => rfl
    | some l =>
      rw [empty_operator_map_values no_operators gi l hl]
      rfl

/-- C8 witness: a merged validator deriving to the unknown pair (1,99) is
skipped while the validator of operator (1,3) is appended to that operator's
list, whose lookup is exactly the one-element filter. -/
theorem unknown_operator_validators_skipped_witness :
    ∃ result,
      get_lido_validators_by_node_operators
        [⟨(sampleValidator 7 0 FAR_FUTURE_EPOCH "pk7").toValidator, ⟨"pk7", "sig", 3, true, "0xmod1"⟩⟩,
         ⟨(sampleValidator 8 0 FAR_FUTURE_EPOCH "pk8").toValidator, ⟨"pk8", "sig", 99, true, "0xmod1"⟩⟩]
        [sampleOperator 3 0 0] = some result
      ∧ result.map Prod.fst = (empty_operator_map [sampleOperator 3 0 0]).map Prod.fst
      ∧ ∀ gi, dlookup gi result
          = (dlookup gi (empty_operator_map [sampleOperator 3 0 0])).map
              (fun _ =>
                [⟨(sampleValidator 7 0 FAR_FUTURE_EPOCH "pk7").toValidator, ⟨"pk7", "sig", 3, true, "0xmod1"⟩⟩,
                 ⟨(sampleValidator 8 0 FAR_FUTURE_EPOCH "pk8").toValidator, ⟨"pk8", "sig", 99, true, "0xmod1"⟩⟩].filter
                  (fun v => decide (derived_global_index [sampleOperator 3 0 0] v = some gi))) :=
  unknown_operator_validators_skipped
    [⟨(sampleValidator 7 0 FAR_FUTURE_EPOCH "pk7").toValidator, ⟨"pk7", "sig", 3, true, "0xmod1"⟩⟩,
     ⟨(sampleValidator 8 0 FAR_FUTURE_EPOCH "pk8").toValidator, ⟨"pk8", "sig", 99, true, "0xmod1"⟩⟩]
    [sampleOperator 3 0 0] (by decide)

/-- C9: whenever `get_lido_validators_by_node_operators` succeeds, every node
operator returned by the registry has its global index `(staking_module.id,
operator.id)` present as a key of the result; an operator to which no merged
validator belongs is mapped to the empty list rather than being absent. -/
theorem operator_keys_always_present
    (merged_validators : List LidoValidator) (no_operators : List NodeOperator)
    (result : List (NodeOperatorGlobalIndex × List LidoValidator))
    (hsucc : get_lido_validators_by_node_operators merged_validators no_operators = some result) :
    ∀ op ∈ no_operators, ∃ l, dlookup op.global_index result = some l
      ∧ ((∀ v ∈ merged_validators,
            derived_global_index no_operators v ≠ some op.global_index) → l = []) := by
  intro op hop
  have hres : ∀ v ∈ merged_validators,
      (dlookup v.lido_id.moduleAddress (staking_module_address_map no_operators)).isSome :=
    by_no_success_resolvable no_operators merged_validators
      (empty_operator_map no_operators) result hsucc
  rcases unknown_operator_validators_skipped merged_validators no_operators hres with
    ⟨result', hr', _, hlook⟩
  have hrr : result' = result := Option.some.inj (hr'.symm.trans hsucc)
  subst hrr
  have hkey := hlook op.global_index
  rcases Option.isSome_iff_exists.mp
      (dlookup_isSome_of_mem_keys op.global_index (empty_operator_map no_operators)
        (mem_keys_empty_operator_map no_operators op hop)) with ⟨l0, hl0⟩
  rw [hl0] at hkey
  refine ⟨_, hkey, ?_⟩
  intro hnone
  rw [List.filter_eq_nil_iff]
  intro v hv
  simp only [decide_eq_true_eq]
  exact hnone v hv

/-- C9 witness: an operator with no merged validators is mapped to the empty
list. -/
theorem operator_keys_always_present_witness :
    ∃ l, dlookup (sampleOperator 3 0 0).global_index [((1, 3), ([] : List LidoValidator))]
        = some l
      ∧ ((∀ v ∈ ([] : List LidoValidator),
            derived_global_index [sampleOperator 3 0 0] v
              ≠ some (sampleOperator 3 0 0).global_index) → l = []) :=
  operator_keys_always_present [] [sampleOperator 3 0 0] [((1, 3), [])] (by decide)
    (sampleOperator 3 0 0) (by decide)

/-- C6 (amended): for every epoch the sum over the empty validator list is
`0`; the one-increment protocol floor is applied by
`calculate_total_active_effective_balance`, which returns exactly one
minimum-balance-increment unit on the empty list. -/
theorem active_effective_balance_empty_floor (epoch : Nat) :
    calculate_active_effective_balance_sum [] epoch = 0
    ∧ calculate_total_active_effective_balance [] epoch = EFFECTIVE_BALANCE_INCREMENT := by
  exact ⟨rfl, rfl⟩

end Oracle
